import Mathlib

/-!
Verification of the keeply-web-bot message-board backend.

The definitions below are a shallow embedding of the JavaScript source:
the JSON-backed message store (`src/services/messageService.js`), the
pagination and attachment routes (`src/routes/api/messages.js`), the
file-classification table (`src/configs/fileTypes.js`), the content
validator (`validateService`), and the upload organizer
(`src/services/fileService.js`).  Machine-level concerns (actual disk
I/O, randomness of UUIDs) are made explicit parameters; everything else
follows the source line by line.
-/

/-- One stored attachment, as built by `moveSingleFile` and persisted in
`messages.json` (field names follow the JS object). -/
structure AttachmentRef where
  filename : String
  originalname : String
  mimetype : String
  size : Nat
  url : String
deriving DecidableEq, Repr

/-- One persisted message record (fields `id`, `message`, `files`,
`timestamp`).  The ISO-8601 `timestamp` string is represented by its
epoch value (a `Nat`), which is what the route handlers compare via
`new Date(a.timestamp) - new Date(b.timestamp)`. -/
structure Message where
  id : String
  message : String
  files : List AttachmentRef
  timestamp : Nat
deriving DecidableEq, Repr

/-- The comparison used by `messages.sort((a, b) => new Date(a.timestamp) - new Date(b.timestamp))`. -/
def tsLE (a b : Message) : Prop := a.timestamp ≤ b.timestamp

instance : DecidableRel tsLE := fun a b => Nat.decLe a.timestamp b.timestamp

instance : IsTotal Message tsLE := ⟨fun a b => Nat.le_total a.timestamp b.timestamp⟩

instance : IsTrans Message tsLE := ⟨fun _ _ _ h h' => Nat.le_trans h h'⟩

/-- `messages.sort(byTimestampAscending)` — a stable ascending sort, as
guaranteed for `Array.prototype.sort` since ES2019. -/
def sortByTimestamp (messages : List Message) : List Message :=
  List.insertionSort tsLE messages

/-- The pagination computation of the `GET /api/messages` handler
(`src/routes/api/messages.js` lines 47-56): sort ascending by timestamp,
then `slice(Math.max(0, total - offset - limit), Math.max(0, total - offset))`. -/
def paginate (msgs : List Message) (offset limit : Nat) : List Message :=
  let messages := sortByTimestamp msgs
  let total := messages.length
  let start := (max 0 ((total : Int) - offset - limit)).toNat
  let stop := (max 0 ((total : Int) - offset)).toNat
  (messages.drop start).take (stop - start)

/-- Spec-side description of `Array.prototype.slice(start, stop)`: the
elements whose index lies in the window `[start, stop)`. -/
def sliceSpec (l : List Message) (start stop : Nat) : List Message :=
  (l.take stop).drop start

theorem clampToNat (a b c : Nat) : (max 0 ((a : Int) - b - c)).toNat = a - b - c := by
  omega

theorem clampToNat2 (a b : Nat) : (max 0 ((a : Int) - b)).toNat = a - b := by
  omega

theorem paginate_eq_drop_take (msgs : List Message) (offset limit : Nat) :
    paginate msgs offset limit =
      ((sortByTimestamp msgs).drop ((sortByTimestamp msgs).length - offset - limit)).take
        ((sortByTimestamp msgs).length - offset -
          ((sortByTimestamp msgs).length - offset - limit)) := by
  simp only [paginate, clampToNat, clampToNat2]

/-- C1: the list operation sorts messages ascending by timestamp and
returns exactly the slice `[max(0, total - offset - limit), max(0, total - offset))`
of the sorted sequence; when `offset ≥ total` the result is empty, and
when `limit` exceeds the remaining messages the result is all remaining
messages from index 0, in ascending (old-to-new) order. -/
theorem C1_paginate (msgs : List Message) (offset limit : Nat) :
    (sortByTimestamp msgs).Perm msgs ∧
    List.Sorted tsLE (sortByTimestamp msgs) ∧
    paginate msgs offset limit =
      sliceSpec (sortByTimestamp msgs)
        (max 0 ((msgs.length : Int) - offset - limit)).toNat
        (max 0 ((msgs.length : Int) - offset)).toNat ∧
    (msgs.length ≤ offset → paginate msgs offset limit = []) ∧
    (msgs.length ≤ offset + limit →
      paginate msgs offset limit = (sortByTimestamp msgs).take (msgs.length - offset)) ∧
    List.Sorted tsLE (paginate msgs offset limit) := by
  have hperm : (sortByTimestamp msgs).Perm msgs := List.perm_insertionSort tsLE msgs
  have hlen : (sortByTimestamp msgs).length = msgs.length := hperm.length_eq
  have hsorted : List.Sorted tsLE (sortByTimestamp msgs) :=
    List.sorted_insertionSort tsLE msgs
  have heq := paginate_eq_drop_take msgs offset limit
  refine ⟨hperm, hsorted, ?_, ?_, ?_, ?_⟩
  · rw [heq, clampToNat, clampToNat2, hlen, sliceSpec, List.drop_take]
  · intro h
    rw [heq, hlen]
    have hz : msgs.length - offset - limit = 0 := by omega
    have hz2 : msgs.length - offset = 0 := by omega
    simp [hz, hz2]
  · intro h
    rw [heq, hlen]
    have hz : msgs.length - offset - limit = 0 := by omega
    simp [hz]
  · rw [heq]
    exact hsorted.sublist ((List.take_sublist _ _).trans (List.drop_sublist _ _))

/-- Concrete instantiation of `C1_paginate`: with three stored messages,
`offset = 20` exceeds the total, so the returned window is empty. -/
theorem C1_paginate_witness :
    paginate
      [⟨"a", "m1", [], 3⟩, ⟨"b", "m2", [], 1⟩, ⟨"c", "m3", [], 2⟩] 20 5 = [] :=
  (C1_paginate [⟨"a", "m1", [], 3⟩, ⟨"b", "m2", [], 1⟩, ⟨"c", "m3", [], 2⟩] 20 5).2.2.2.1
    (by decide)

/-- Character class `[a-f0-9\-]` of the messageId / filename patterns. -/
def isHexDashChar (c : Char) : Bool :=
  decide (('a' ≤ c ∧ c ≤ 'f') ∨ ('0' ≤ c ∧ c ≤ '9') ∨ c = '-')

/-- Character class `[a-z]` of the subdirectory pattern. -/
def isLowerChar (c : Char) : Bool :=
  decide ('a' ≤ c ∧ c ≤ 'z')

/-- Character class `[a-z0-9]` of the filename-extension pattern. -/
def isLowerDigitChar (c : Char) : Bool :=
  decide (('a' ≤ c ∧ c ≤ 'z') ∨ ('0' ≤ c ∧ c ≤ '9'))

/-- `/^[a-f0-9\-]{36}$/.test(messageId)`: exactly 36 characters, all in
`[a-f0-9-]`. -/
def validMessageId (s : String) : Bool :=
  s.length == 36 && s.data.all isHexDashChar

/-- `/^[a-z]+$/.test(subdir)`: nonempty, all lowercase letters. -/
def validSubdir (s : String) : Bool :=
  !s.data.isEmpty && s.data.all isLowerChar

/-- `/^[a-f0-9\-]+\.[a-z0-9]+$/.test(filename)`: a nonempty `[a-f0-9-]`
block, a literal dot, then a nonempty `[a-z0-9]` block.  Neither
character class contains `'.'`, so a string matches exactly when its
maximal leading hex-dash block is followed by a dot and a nonempty
lowercase-alphanumeric tail. -/
def validFilename (s : String) : Bool :=
  let hexPart := s.data.takeWhile isHexDashChar
  let rest := s.data.dropWhile isHexDashChar
  !hexPart.isEmpty && rest.head? == some '.' && !rest.tail.isEmpty &&
    rest.tail.all isLowerDigitChar

/-- Outcome of `GET /uploads/:messageId/:subdir/:filename`. -/
inductive UploadResponse where
  | badRequest
  | notFound
  | served (path : String)
deriving DecidableEq, Repr

/-- The uploads root directory (`UPLOADS_DIR` in `src/utils/paths.js`). -/
def UPLOADS_DIR : String := "uploads"

/-- The `GET /uploads/:messageId/:subdir/:filename` handler
(`src/routes/api/messages.js` lines 233-281).  The filesystem is
abstracted as the predicate `fileExists`, consulted only after the three
pattern checks pass. -/
def handleGetUpload (messageId subdir filename : String)
    (fileExists : String → Bool) : UploadResponse :=
  if !validMessageId messageId || !validSubdir subdir || !validFilename filename then
    .badRequest
  else
    let filePath := UPLOADS_DIR ++ "/" ++ messageId ++ "/" ++ subdir ++ "/" ++ filename
    if fileExists filePath then .served filePath else .notFound

theorem validFilename_count_dot (s : String) (h : validFilename s = true) :
    s.data.count '.' = 1 := by
  unfold validFilename at h
  simp only [Bool.and_eq_true, Bool.not_eq_true', beq_iff_eq, List.all_eq_true] at h
  obtain ⟨⟨⟨-, hhead⟩, -⟩, hall⟩ := h
  rcases hr : s.data.dropWhile isHexDashChar with _ | ⟨c, t⟩
  · rw [hr] at hhead
    simp at hhead
  · rw [hr] at hhead hall
    simp only [List.head?_cons, Option.some.injEq] at hhead
    subst hhead
    simp only [List.tail_cons] at hall
    have hsplit : s.data.takeWhile isHexDashChar ++ s.data.dropWhile isHexDashChar
        = s.data := List.takeWhile_append_dropWhile isHexDashChar s.data
    rw [hr] at hsplit
    rw [← hsplit, List.count_append]
    have hA : (s.data.takeWhile isHexDashChar).count '.' = 0 := by
      rw [List.count_eq_zero]
      intro hmem
      have := List.mem_takeWhile_imp hmem
      exact absurd this (by decide)
    have hB : t.count '.' = 0 := by
      rw [List.count_eq_zero]
      intro hmem
      have := hall '.' hmem
      exact absurd this (by decide)
    rw [hA, List.count_cons_self, hB]

/-- C2: any attachment-fetch request whose messageId is not a
36-character hex-dash string, or whose subdirectory is not lowercase
letters only, or whose filename is not a hex-dash block plus an
extension, is answered `400` without consulting the filesystem — the
response is the same for every filesystem state.  In particular
`"../../etc"` fails the messageId pattern, and any filename containing
`".."` fails the filename pattern. -/
theorem C2_path_validation :
    (∀ (messageId subdir filename : String) (fs fs' : String → Bool),
      (validMessageId messageId = false ∨ validSubdir subdir = false ∨
        validFilename filename = false) →
      handleGetUpload messageId subdir filename fs = .badRequest ∧
      handleGetUpload messageId subdir filename fs =
        handleGetUpload messageId subdir filename fs') ∧
    validMessageId "../../etc" = false ∧
    (∀ (filename : String) (u v : List Char),
      filename.data = u ++ '.' :: '.' :: v → validFilename filename = false) := by
  refine ⟨?_, by decide, ?_⟩
  · intro messageId subdir filename fs fs' h
    have hcond : (!validMessageId messageId || !validSubdir subdir ||
        !validFilename filename) = true := by
      rcases h with h | h | h <;> simp [h]
    constructor <;> simp [handleGetUpload, hcond]
  · intro filename u v hdata
    by_contra hcontra
    rw [Bool.not_eq_false] at hcontra
    have hone := validFilename_count_dot filename hcontra
    rw [hdata, List.count_append, List.count_cons_self, List.count_cons_self] at hone
    omega

/-- Concrete instantiation of `C2_path_validation`: the traversal attempt
`/uploads/../../etc/images/a.png` is rejected with `400` even on a
filesystem where every path exists. -/
theorem C2_path_validation_witness :
    handleGetUpload "../../etc" "images" "a.png" (fun _ => true) = .badRequest :=
  (C2_path_validation.1 "../../etc" "images" "a.png" (fun _ => true) (fun _ => false)
    (Or.inl (by decide))).1

/-- One entry of `FILE_TYPE_CONFIG` in `src/configs/fileTypes.js`
(the JS field named after the MIME-type stem is called `mimePrefix`
here). -/
structure FileTypeEntry where
  mimePrefix : String
  specificTypes : List String
  subdir : String
deriving DecidableEq, Repr

/-- The static classification table `FILE_TYPE_CONFIG`. -/
def FILE_TYPE_CONFIG : List FileTypeEntry :=
  [⟨"image/", ["image/jpeg", "image/png", "image/gif", "image/webp"], "images"⟩,
   ⟨"video/", ["video/mp4"], "videos"⟩,
   ⟨"audio/", ["audio/mpeg", "audio/wav"], "audios"⟩]

/-- `ALLOWED_FILE_TYPES = FILE_TYPE_CONFIG.flatMap((c) => c.specificTypes)`. -/
def ALLOWED_FILE_TYPES : List String :=
  FILE_TYPE_CONFIG.flatMap (fun c => c.specificTypes)

/-- `MIME_PREFIXES = FILE_TYPE_CONFIG.map((c) => c.prefix)`. -/
def MIME_PREFIXES : List String :=
  FILE_TYPE_CONFIG.map (fun c => c.mimePrefix)

/-- `PREFIX_TO_SUBDIR`, the `{ [prefix]: subdir }` object, as an
association list. -/
def PREFIX_TO_SUBDIR : List (String × String) :=
  FILE_TYPE_CONFIG.map (fun c => (c.mimePrefix, c.subdir))

/-- The `MIME_TO_EXT` object, as an association list. -/
def MIME_TO_EXT : List (String × String) :=
  [("image/jpeg", ".jpg"),
   ("image/png", ".png"),
   ("image/gif", ".gif"),
   ("image/webp", ".webp"),
   ("video/mp4", ".mp4"),
   ("audio/mpeg", ".mp3"),
   ("audio/wav", ".wav")]

/-- `getExtensionFromMime`: `mimeType && MIME_TO_EXT[mimeType] ? MIME_TO_EXT[mimeType] : '.bin'`
(the empty string stands for a falsy `mimeType`). -/
def getExtensionFromMime (mimeType : String) : String :=
  match (if mimeType = "" then none else MIME_TO_EXT.lookup mimeType) with
  | some e => e
  | none => ".bin"

/-- `str.startsWith(pre)` of JavaScript at the character-list level. -/
def strStartsWith (s p : String) : Bool := decide (p.data <+: s.data)

/-- `getSubdirByRealMimetype`: `null` for a falsy mime type, otherwise
the subdirectory of the first entry of `MIME_PREFIXES` that the mime
type starts with, or `null` when none matches. -/
def getSubdirByRealMimetype (mimeType : String) : Option String :=
  if mimeType = "" then none
  else
    match MIME_PREFIXES.find? (fun p => strStartsWith mimeType p) with
    | some matched => PREFIX_TO_SUBDIR.lookup matched
    | none => none

/-- Outcome of probing a file's magic bytes with `fileTypeFromFile`:
the library call may throw (unreadable file), return `undefined`
(no signature matched), or return a detected mime type. -/
inductive ProbeResult where
  | fault
  | noMatch
  | detected (mime : String)
deriving DecidableEq, Repr

/-- The record returned by `validateFile` in `validateService.js`. -/
structure ValidationResult where
  isValid : Bool
  detectedMimeType : Option String
  error : Option String
deriving DecidableEq, Repr

/-- Rejection message for an undeterminable content type. -/
def MSG_UNDETERMINABLE : String := "Не удалось определить тип файла по содержимому"

/-- Rejection message naming a detected but disallowed content type. -/
def MSG_NOT_PERMITTED (m : String) : String := "Тип файла \"" ++ m ++ "\" не разрешен"

/-- Rejection message produced by the catch-all branch. -/
def MSG_VALIDATION_FAULT : String := "Ошибка при валидации файла"

/-- `validateFile` (`validateService.js` lines 35-73): the whole body is
wrapped in try/catch, so a probe fault becomes a rejection record, a
missing signature a rejection, a detected type outside
`ALLOWED_FILE_TYPES` a rejection naming the type, and an allow-listed
type an acceptance. -/
def validateFile (probe : ProbeResult) : ValidationResult :=
  match probe with
  | .fault => ⟨false, none, some MSG_VALIDATION_FAULT⟩
  | .noMatch => ⟨false, none, some MSG_UNDETERMINABLE⟩
  | .detected m =>
    if ALLOWED_FILE_TYPES.contains m then ⟨true, some m, none⟩
    else ⟨false, some m, some (MSG_NOT_PERMITTED m)⟩

/-- C4: `validateFile` is a total function of the probe outcome — an
unreadable or corrupt file (probe fault) yields a rejection record, not
an exception; no signature yields the "undeterminable" rejection; a
signature outside the allow-list yields a "not permitted" rejection
whose message names the detected type; an allow-listed signature yields
an acceptance carrying the verified type; and the allow-list is exactly
the seven types of the claim. -/
theorem C4_validateFile :
    validateFile .noMatch = ⟨false, none, some MSG_UNDETERMINABLE⟩ ∧
    validateFile .fault = ⟨false, none, some MSG_VALIDATION_FAULT⟩ ∧
    (∀ m, ALLOWED_FILE_TYPES.contains m = false →
      validateFile (.detected m) = ⟨false, some m, some (MSG_NOT_PERMITTED m)⟩) ∧
    (∀ m, ALLOWED_FILE_TYPES.contains m = true →
      validateFile (.detected m) = ⟨true, some m, none⟩) ∧
    ALLOWED_FILE_TYPES = ["image/jpeg", "image/png", "image/gif", "image/webp",
      "video/mp4", "audio/mpeg", "audio/wav"] := by
  refine ⟨rfl, rfl, ?_, ?_, by decide⟩
  · intro m h
    have hmem : m ∉ ALLOWED_FILE_TYPES := by simpa using h
    simp [validateFile, hmem]
  · intro m h
    have hmem : m ∈ ALLOWED_FILE_TYPES := by simpa using h
    simp [validateFile, hmem]

/-- Concrete instantiation of `C4_validateFile`: a PDF signature is
detected but not allow-listed, so the file is rejected with a message
naming `application/pdf`. -/
theorem C4_validateFile_witness :
    validateFile (.detected "application/pdf")
      = ⟨false, some "application/pdf", some (MSG_NOT_PERMITTED "application/pdf")⟩ :=
  C4_validateFile.2.2.1 "application/pdf" (by decide)

/-- The observable states of the backing `messages.json` document as
`readMessages` sees them: the file may be absent, unreadable, readable
but not valid JSON, or a parsed array of message records. -/
inductive BackingDoc where
  | missing
  | unreadable
  | corrupt
  | parsed (messages : List Message)
deriving DecidableEq, Repr

/-- `readMessages` (`messageService.js` lines 26-38): `readFileSync`
plus `JSON.parse` inside try/catch; every failure path returns `[]`. -/
def readMessages : BackingDoc → List Message
  | .missing => []
  | .unreadable => []
  | .corrupt => []
  | .parsed messages => messages

/-- C5: `readMessages` never faults — a missing, unreadable or
unparsable backing document yields the empty sequence (first run and
corruption are indistinguishable), and a parsed document yields exactly
the persisted sequence. -/
theorem C5_readMessages :
    readMessages .missing = [] ∧
    readMessages .unreadable = [] ∧
    readMessages .corrupt = [] ∧
    ∀ messages, readMessages (.parsed messages) = messages :=
  ⟨rfl, rfl, rfl, fun _ => rfl⟩

/-- State owned by the message store: the persisted record sequence and
the set of existing `uploads/{messageId}` directories. -/
structure StoreState where
  messages : List Message
  uploadDirs : List String
deriving DecidableEq, Repr

/-- `deleteMessageUploads` (`messageService.js` lines 95-105): a no-op
when the directory is already gone (`existsSync` guard); `rmSync` may
fail, in which case the error is caught and logged and the directory
survives.  `rmFails` abstracts that failure. -/
def deleteMessageUploads (messageId : String) (dirs : List String)
    (rmFails : Bool) : List String :=
  if !dirs.contains messageId then dirs
  else if rmFails then dirs
  else dirs.filter (fun d => !(d == messageId))

/-- `deleteMessage` (`messageService.js` lines 134-144): `findIndex` by
exact id (`-1` is modelled by `findIdx` returning the length); on a miss
return `false` with no write; on a hit, remove the uploads directory
when the record has files (failure tolerated), `splice` the record out,
persist, return `true`. -/
def deleteMessage (id : String) (st : StoreState) (rmFails : Bool) :
    Bool × StoreState :=
  let messages := st.messages
  let index := messages.findIdx (fun msg => msg.id == id)
  if index = messages.length then (false, st)
  else
    let found := messages.getD index ⟨"", "", [], 0⟩
    let dirs' := if 0 < found.files.length
      then deleteMessageUploads id st.uploadDirs rmFails
      else st.uploadDirs
    (true, ⟨messages.eraseIdx index, dirs'⟩)

theorem eraseIdx_findIdx_eq_eraseP (p : Message → Bool) (l : List Message) :
    l.eraseIdx (l.findIdx p) = l.eraseP p := by
  induction l with
  | nil => rfl
  | cons a l ih =>
    by_cases h : p a
    · simp [List.findIdx_cons, h, List.eraseP_cons, List.eraseIdx]
    · simp only [List.findIdx_cons, h, cond_false, List.eraseP_cons,
        Bool.not_eq_true] at *
      simp [List.eraseIdx, h, ih]

theorem findIdx_lt_length_of_mem {p : Message → Bool} {l : List Message}
    {m : Message} (hm : m ∈ l) (hp : p m = true) :
    l.findIdx p < l.length :=
  List.findIdx_lt_length_of_exists ⟨m, hm, hp⟩

/-- C3: deletion by id returns `false` and leaves the state untouched
when no record carries the id; when one does, the first such record is
removed from the persisted sequence and `true` is returned, whether or
not removal of the attachment directory fails. -/
theorem C3_deleteMessage (id : String) (st : StoreState) (rmFails : Bool) :
    ((∀ m ∈ st.messages, m.id ≠ id) → deleteMessage id st rmFails = (false, st)) ∧
    ((∃ m ∈ st.messages, m.id = id) →
      (deleteMessage id st rmFails).1 = true ∧
      (deleteMessage id st rmFails).2.messages
        = st.messages.eraseP (fun m => m.id == id)) := by
  constructor
  · intro h
    have hidx : st.messages.findIdx (fun msg => msg.id == id) = st.messages.length := by
      rw [List.findIdx_eq_length]
      intro m hm
      simpa using h m hm
    simp [deleteMessage, hidx]
  · rintro ⟨m, hm, hid⟩
    have hlt : st.messages.findIdx (fun msg => msg.id == id) < st.messages.length :=
      findIdx_lt_length_of_mem hm (by simpa using hid)
    have hne : ¬ st.messages.findIdx (fun msg => msg.id == id) = st.messages.length :=
      Nat.ne_of_lt hlt
    constructor
    · simp [deleteMessage, hne]
    · simp [deleteMessage, hne, eraseIdx_findIdx_eq_eraseP]

/-- Concrete instantiation of `C3_deleteMessage`: deleting id `"b"` from
a two-message store succeeds and removes exactly that record, even
though directory removal fails. -/
theorem C3_deleteMessage_witness :
    (deleteMessage "b" ⟨[⟨"a", "x", [], 1⟩, ⟨"b", "y", [], 2⟩], ["b"]⟩ true).1 = true ∧
    (deleteMessage "b" ⟨[⟨"a", "x", [], 1⟩, ⟨"b", "y", [], 2⟩], ["b"]⟩ true).2.messages
      = [⟨"a", "x", [], 1⟩] := by
  have h := (C3_deleteMessage "b" ⟨[⟨"a", "x", [], 1⟩, ⟨"b", "y", [], 2⟩], ["b"]⟩ true).2
    ⟨⟨"b", "y", [], 2⟩, by decide, rfl⟩
  exact ⟨h.1, by rw [h.2]; decide⟩

/-- `addMessage` (`messageService.js` lines 83-88): read the document,
`push` the new record at the end, persist.  As a document transition
this is appending at the end. -/
def addMessage (messages : List Message) (newMessage : Message) : List Message :=
  messages ++ [newMessage]

/-- The `GET /api/messages/:id/position` computation
(`src/routes/api/messages.js` lines 317-333): sort ascending by
timestamp, `findIndex` by id; `-1` (here `none`) is mapped to 404. -/
def positionOf (msgs : List Message) (id : String) : Option Nat :=
  (sortByTimestamp msgs).findIdx? (fun msg => msg.id == id)

theorem foldl_addMessage (added : List Message) (initial : List Message) :
    added.foldl addMessage initial = initial ++ added := by
  induction added generalizing initial with
  | nil => simp
  | cons m rest ih => simp [List.foldl_cons, addMessage, ih]

theorem rank_in_sorted (l : List Message)
    (hs : List.Sorted tsLE l)
    (hts : l.Pairwise (fun a b => a.timestamp ≠ b.timestamp))
    (hid : l.Pairwise (fun a b => a.id ≠ b.id))
    (m : Message) (hm : m ∈ l) :
    l.findIdx? (fun x => x.id == m.id)
      = some (l.countP (fun x => decide (x.timestamp < m.timestamp))) := by
  induction l with
  | nil => cases hm
  | cons a l ih =>
    rcases List.mem_cons.mp hm with rfl | hm'
    · have hcount : l.countP (fun x => decide (x.timestamp < m.timestamp)) = 0 := by
        rw [List.countP_eq_zero]
        intro x hx
        have hle : m.timestamp ≤ x.timestamp := (List.sorted_cons.mp hs).1 x hx
        have hne : m.timestamp ≠ x.timestamp := (List.pairwise_cons.mp hts).1 x hx
        simp only [decide_eq_true_eq]
        omega
      simp [List.findIdx?_cons, List.countP_cons, hcount]
    · have hane : a.id ≠ m.id := (List.pairwise_cons.mp hid).1 m hm'
      have hpa : (a.id == m.id) = false := by simpa using hane
      have hrec := ih (List.sorted_cons.mp hs).2 (List.pairwise_cons.mp hts).2
        (List.pairwise_cons.mp hid).2 hm'
      have halt : a.timestamp < m.timestamp := by
        have hle : a.timestamp ≤ m.timestamp := (List.sorted_cons.mp hs).1 m hm'
        have hne : a.timestamp ≠ m.timestamp := (List.pairwise_cons.mp hts).1 m hm'
        omega
      rw [List.findIdx?_cons, hpa]
      simp only [if_false, Bool.false_eq_true]
      rw [List.findIdx?_succ, hrec, List.countP_cons]
      simp [halt]

/-- C8: starting from any persisted sequence, a finite run of `add`
calls leaves the document holding exactly the prior records followed by
the added ones in append order; with globally unique ids and pairwise
distinct timestamps, `positionOf` answers, for each stored message, the
number of stored messages with a strictly smaller timestamp — its rank
(0 = oldest) in the ascending sort — and `none` (404) for an id not
present. -/
theorem C8_add_readAll_position (initial added : List Message) :
    readMessages (.parsed (added.foldl addMessage initial)) = initial ++ added ∧
    (∀ id, (∀ m ∈ initial ++ added, m.id ≠ id) →
      positionOf (initial ++ added) id = none) ∧
    (∀ m ∈ initial ++ added,
      (initial ++ added).Pairwise (fun a b => a.id ≠ b.id) →
      (initial ++ added).Pairwise (fun a b => a.timestamp ≠ b.timestamp) →
      positionOf (initial ++ added) m.id
        = some ((initial ++ added).countP
            (fun x => decide (x.timestamp < m.timestamp)))) := by
  refine ⟨by rw [foldl_addMessage]; rfl, ?_, ?_⟩
  · intro id h
    rw [positionOf, List.findIdx?_eq_none_iff]
    intro x hx
    have hmem : x ∈ initial ++ added :=
      (List.perm_insertionSort tsLE (initial ++ added)).mem_iff.mp hx
    simpa using h x hmem
  · intro m hm hid hts
    have hperm : (sortByTimestamp (initial ++ added)).Perm (initial ++ added) :=
      List.perm_insertionSort tsLE (initial ++ added)
    have hidsymm : ∀ {x y : Message}, x.id ≠ y.id → y.id ≠ x.id :=
      fun h => Ne.symm h
    have htssymm : ∀ {x y : Message}, x.timestamp ≠ y.timestamp → y.timestamp ≠ x.timestamp :=
      fun h => Ne.symm h
    have hid' : (sortByTimestamp (initial ++ added)).Pairwise (fun a b => a.id ≠ b.id) :=
      (hperm.pairwise_iff hidsymm).mpr hid
    have hts' : (sortByTimestamp (initial ++ added)).Pairwise
        (fun a b => a.timestamp ≠ b.timestamp) :=
      (hperm.pairwise_iff htssymm).mpr hts
    have hmem : m ∈ sortByTimestamp (initial ++ added) := hperm.mem_iff.mpr hm
    have hsorted : List.Sorted tsLE (sortByTimestamp (initial ++ added)) :=
      List.sorted_insertionSort tsLE (initial ++ added)
    have hrank := rank_in_sorted (sortByTimestamp (initial ++ added))
      hsorted hts' hid' m hmem
    unfold positionOf
    rw [hrank, hperm.countP_eq (fun x => decide (x.timestamp < m.timestamp))]

/-- Concrete instantiation of `C8_add_readAll_position`: two appended
messages land behind the initial one in document order, and the message
with the middle timestamp sits at rank 1. -/
theorem C8_add_readAll_position_witness :
    readMessages (.parsed ([⟨"b", "y", [], 5⟩, ⟨"c", "z", [], 2⟩].foldl addMessage
      [⟨"a", "x", [], 9⟩]))
      = [⟨"a", "x", [], 9⟩, ⟨"b", "y", [], 5⟩, ⟨"c", "z", [], 2⟩] ∧
    positionOf [⟨"a", "x", [], 9⟩, ⟨"b", "y", [], 5⟩, ⟨"c", "z", [], 2⟩] "b" = some 1 := by
  have h := C8_add_readAll_position [⟨"a", "x", [], 9⟩] [⟨"b", "y", [], 5⟩, ⟨"c", "z", [], 2⟩]
  have h2 := h.2.2 ⟨"b", "y", [], 5⟩ (by decide) (by decide) (by decide)
  exact ⟨h.1, h2.trans (by decide)⟩

/-- One uploaded file as delivered by the multipart parser (formidable):
a temporary path, the client-declared mime type, the original name and
size, the probe outcome of its magic bytes, and the `realMimetype`
attribute which the validation middleware fills in. -/
structure UploadedFile where
  filepath : String
  originalFilename : String
  mimetype : String
  realMimetype : Option String
  size : Nat
  probe : ProbeResult
deriving DecidableEq, Repr

/-- The idiom `file.realMimetype || file.mimetype` used throughout
`fileService.js`. -/
def effMime (file : UploadedFile) : String :=
  file.realMimetype.getD file.mimetype

/-- `path.basename`: the part of the path after the last slash. -/
def basename (s : String) : String :=
  String.mk ((s.data.reverse.takeWhile (fun c => !(c == '/'))).reverse)

/-- `(groups[subdir] ??= []).push(file)`: append to the existing group
of the key, or add a new key at the end (JS object key-insertion
order). -/
def pushGroup (groups : List (String × List UploadedFile)) (subdir : String)
    (file : UploadedFile) : List (String × List UploadedFile) :=
  match groups with
  | [] => [(subdir, [file])]
  | (k, fs) :: rest =>
    if k = subdir then (k, fs ++ [file]) :: rest
    else (k, fs) :: pushGroup rest subdir file

/-- The body of the `reduce` in `groupFilesByType`: files whose
effective mime type yields no subdirectory are skipped. -/
def addFileToGroups (groups : List (String × List UploadedFile))
    (file : UploadedFile) : List (String × List UploadedFile) :=
  match getSubdirByRealMimetype (effMime file) with
  | none => groups
  | some subdir => pushGroup groups subdir file

/-- `groupFilesByType` (`fileService.js` lines 63-71). -/
def groupFilesByType (files : List UploadedFile) :
    List (String × List UploadedFile) :=
  files.foldl addFileToGroups []

/-- `moveSingleFile` (`fileService.js` lines 88-113).  `newName` is the
freshly generated `uuidv4()`; the filesystem move is a side effect not
reflected in the returned metadata. -/
def moveSingleFile (file : UploadedFile) (messageDir subdirName newName : String) :
    AttachmentRef :=
  let realMimetype := effMime file
  let ext := getExtensionFromMime realMimetype
  let newFilename := newName ++ ext
  let relativePath := basename messageDir ++ "/" ++ subdirName ++ "/" ++ newFilename
  { filename := relativePath
    originalname := file.originalFilename
    mimetype := effMime file
    size := file.size
    url := "/uploads/" ++ relativePath }

/-- `processFileGroup` (`fileService.js` lines 128-131), with the
`uuidv4()` supply made explicit: the file at overall position `start`
receives the name `gen start`. -/
def processFileGroup (files : List UploadedFile) (messageDir subdirName : String)
    (gen : Nat → String) (start : Nat) : List AttachmentRef :=
  match files with
  | [] => []
  | f :: rest =>
    moveSingleFile f messageDir subdirName (gen start) ::
      processFileGroup rest messageDir subdirName gen (start + 1)

/-- The loop over `Object.entries(fileGroups)` in
`organizeUploadedFiles`, threading the name supply through the groups. -/
def organizeGroups (groups : List (String × List UploadedFile))
    (messageDir : String) (gen : Nat → String) (start : Nat) : List AttachmentRef :=
  match groups with
  | [] => []
  | (subdirName, groupFiles) :: rest =>
    processFileGroup groupFiles messageDir subdirName gen start ++
      organizeGroups rest messageDir gen (start + groupFiles.length)

/-- `organizeUploadedFiles` (`fileService.js` lines 14-30), with the
generated message uuid and the per-file uuid supply as parameters.  The
input is already the normalized flat list. -/
def organizeUploadedFiles (files : List UploadedFile) (messageId : String)
    (gen : Nat → String) : List AttachmentRef × Option String :=
  if files.length = 0 then ([], none)
  else
    let messageDir := UPLOADS_DIR ++ "/" ++ messageId
    let fileGroups := groupFilesByType files
    (organizeGroups fileGroups messageDir gen 0, some messageId)

theorem takeWhile_append_all {p : Char → Bool} (l1 l2 : List Char)
    (h : ∀ c ∈ l1, p c = true) :
    (l1 ++ l2).takeWhile p = l1 ++ l2.takeWhile p := by
  induction l1 with
  | nil => simp
  | cons c cs ih =>
    have hc : p c = true := h c (List.mem_cons_self c cs)
    simp only [List.cons_append, List.takeWhile_cons, hc, if_true]
    rw [ih (fun x hx => h x (List.mem_cons_of_mem c hx))]

theorem basename_concat (pre mid : String) (h : '/' ∉ mid.data) :
    basename (pre ++ "/" ++ mid) = mid := by
  unfold basename
  have hdata : (pre ++ "/" ++ mid).data = (pre.data ++ ['/']) ++ mid.data := by
    rw [String.data_append, String.data_append]
  rw [hdata, List.reverse_append, List.reverse_append]
  have hrev : ∀ c ∈ mid.data.reverse, (!(c == '/')) = true := by
    intro c hc
    have : c ∈ mid.data := List.mem_reverse.mp hc
    have hne : c ≠ '/' := fun hceq => h (hceq ▸ this)
    simpa using hne
  rw [takeWhile_append_all _ _ hrev]
  simp only [List.reverse_cons, List.reverse_nil, List.nil_append, List.takeWhile_cons]
  norm_num

/-- Soundness of the grouping fold: every file in every group comes
from the input and classifies to exactly the group's key. -/
def GroupsInv (files : List UploadedFile)
    (groups : List (String × List UploadedFile)) : Prop :=
  ∀ p ∈ groups, ∀ f ∈ p.2,
    f ∈ files ∧ getSubdirByRealMimetype (effMime f) = some p.1

theorem pushGroup_inv {files : List UploadedFile}
    {groups : List (String × List UploadedFile)} {subdir : String}
    {file : UploadedFile} (h : GroupsInv files groups) (hf : file ∈ files)
    (hsub : getSubdirByRealMimetype (effMime file) = some subdir) :
    GroupsInv files (pushGroup groups subdir file) := by
  induction groups with
  | nil =>
    intro p hp f hfmem
    simp only [pushGroup, List.mem_singleton] at hp
    subst hp
    simp only [List.mem_singleton] at hfmem
    subst hfmem
    exact ⟨hf, hsub⟩
  | cons g rest ih =>
    obtain ⟨k, fs⟩ := g
    by_cases hk : k = subdir
    · subst hk
      intro p hp f hfmem
      simp only [pushGroup, if_pos rfl] at hp
      rcases List.mem_cons.mp hp with rfl | hp'
      · rcases List.mem_append.mp hfmem with hin | hin
        · exact h (k, fs) (List.mem_cons_self _ _) f hin
        · simp only [List.mem_singleton] at hin
          subst hin
          exact ⟨hf, hsub⟩
      · exact h p (List.mem_cons_of_mem _ hp') f hfmem
    · intro p hp f hfmem
      simp only [pushGroup, if_neg hk] at hp
      rcases List.mem_cons.mp hp with rfl | hp'
      · exact h (k, fs) (List.mem_cons_self _ _) f hfmem
      · exact ih (fun q hq g hg => h q (List.mem_cons_of_mem _ hq) g hg) p hp' f hfmem

theorem groupFold_inv (files : List UploadedFile) (U : List UploadedFile)
    (acc : List (String × List UploadedFile)) (hacc : GroupsInv U acc)
    (hfiles : ∀ f ∈ files, f ∈ U) :
    GroupsInv U (files.foldl addFileToGroups acc) := by
  induction files generalizing acc with
  | nil => exact hacc
  | cons f rest ih =>
    rw [List.foldl_cons]
    have hfU : f ∈ U := hfiles f (List.mem_cons_self _ _)
    have hrest : ∀ g ∈ rest, g ∈ U := fun g hg => hfiles g (List.mem_cons_of_mem f hg)
    rcases hsub : getSubdirByRealMimetype (effMime f) with _ | subdir
    · have : addFileToGroups acc f = acc := by simp [addFileToGroups, hsub]
      rw [this]
      exact ih acc hacc hrest
    · have : addFileToGroups acc f = pushGroup acc subdir f := by
        simp [addFileToGroups, hsub]
      rw [this]
      exact ih _ (pushGroup_inv hacc hfU hsub) hrest

theorem groupFilesByType_inv (files : List UploadedFile) :
    GroupsInv files (groupFilesByType files) :=
  groupFold_inv files files [] (fun p hp => absurd hp (List.not_mem_nil p))
    (fun _ hf => hf)

/-- Total number of files held in the groups. -/
def groupsSize (groups : List (String × List UploadedFile)) : Nat :=
  (groups.map (fun p => p.2.length)).sum

theorem pushGroup_size (groups : List (String × List UploadedFile))
    (subdir : String) (file : UploadedFile) :
    groupsSize (pushGroup groups subdir file) = groupsSize groups + 1 := by
  induction groups with
  | nil => rfl
  | cons g rest ih =>
    obtain ⟨k, fs⟩ := g
    by_cases hk : k = subdir
    · simp [pushGroup, hk, groupsSize]
      omega
    · simp only [pushGroup, hk, if_false]
      simp only [groupsSize, List.map_cons, List.sum_cons] at *
      omega

theorem groupFold_size (files : List UploadedFile)
    (acc : List (String × List UploadedFile)) :
    groupsSize (files.foldl addFileToGroups acc)
      = groupsSize acc
        + files.countP (fun f => (getSubdirByRealMimetype (effMime f)).isSome) := by
  induction files generalizing acc with
  | nil => simp
  | cons f rest ih =>
    rw [List.foldl_cons, List.countP_cons]
    rcases hsub : getSubdirByRealMimetype (effMime f) with _ | subdir
    · have hstep : addFileToGroups acc f = acc := by simp [addFileToGroups, hsub]
      rw [hstep, ih acc]
      simp [hsub]
    · have hstep : addFileToGroups acc f = pushGroup acc subdir f := by
        simp [addFileToGroups, hsub]
      rw [hstep, ih _, pushGroup_size]
      simp [hsub]
      omega

theorem processFileGroup_length (files : List UploadedFile)
    (messageDir subdirName : String) (gen : Nat → String) (start : Nat) :
    (processFileGroup files messageDir subdirName gen start).length = files.length := by
  induction files generalizing start with
  | nil => rfl
  | cons f rest ih => simp [processFileGroup, ih]

theorem organizeGroups_length (groups : List (String × List UploadedFile))
    (messageDir : String) (gen : Nat → String) (start : Nat) :
    (organizeGroups groups messageDir gen start).length = groupsSize groups := by
  induction groups generalizing start with
  | nil => rfl
  | cons g rest ih =>
    obtain ⟨subdirName, groupFiles⟩ := g
    simp [organizeGroups, processFileGroup_length, ih, groupsSize, List.length_append]

theorem processFileGroup_mem {ref : AttachmentRef} (files : List UploadedFile)
    (messageDir subdirName : String) (gen : Nat → String) (start : Nat)
    (h : ref ∈ processFileGroup files messageDir subdirName gen start) :
    ∃ f ∈ files, ∃ i, ref = moveSingleFile f messageDir subdirName (gen i) := by
  induction files generalizing start with
  | nil => cases h
  | cons f rest ih =>
    rcases List.mem_cons.mp h with rfl | h'
    · exact ⟨f, List.mem_cons_self _ _, start, rfl⟩
    · obtain ⟨g, hg, i, hi⟩ := ih (start + 1) h'
      exact ⟨g, List.mem_cons_of_mem _ hg, i, hi⟩

theorem organizeGroups_mem {ref : AttachmentRef}
    (groups : List (String × List UploadedFile)) (messageDir : String)
    (gen : Nat → String) (start : Nat)
    (h : ref ∈ organizeGroups groups messageDir gen start) :
    ∃ p ∈ groups, ∃ f ∈ p.2, ∃ i,
      ref = moveSingleFile f messageDir p.1 (gen i) := by
  induction groups generalizing start with
  | nil => cases h
  | cons g rest ih =>
    obtain ⟨subdirName, groupFiles⟩ := g
    rcases List.mem_append.mp h with h' | h'
    · obtain ⟨f, hf, i, hi⟩ :=
        processFileGroup_mem groupFiles messageDir subdirName gen start h'
      exact ⟨(subdirName, groupFiles), List.mem_cons_self _ _, f, hf, i, hi⟩
    · obtain ⟨p, hp, f, hf, i, hi⟩ := ih (start + groupFiles.length) h'
      exact ⟨p, List.mem_cons_of_mem _ hp, f, hf, i, hi⟩

theorem head?_eq_of_startsWith {m p : String} (h : strStartsWith m p = true)
    (hp : p.data.head? ≠ none) : m.data.head? = p.data.head? := by
  have h' : p.data <+: m.data := of_decide_eq_true h
  obtain ⟨t, ht⟩ := h'
  rw [← ht]
  rcases hd : p.data with _ | ⟨c, cs⟩
  · rw [hd] at hp
    simp at hp
  · rfl

theorem startsWith_ne_empty {m p : String} (h : strStartsWith m p = true)
    (hp : p.data.head? ≠ none) : ¬ m = "" := by
  intro he
  subst he
  have := head?_eq_of_startsWith h hp
  rw [show ("" : String).data.head? = none from rfl] at this
  exact hp this.symm

theorem MIME_PREFIXES_eq : MIME_PREFIXES = ["image/", "video/", "audio/"] := rfl

theorem getSubdir_image (m : String) (h : strStartsWith m "image/" = true) :
    getSubdirByRealMimetype m = some "images" := by
  unfold getSubdirByRealMimetype
  rw [if_neg (startsWith_ne_empty h (by decide))]
  rw [MIME_PREFIXES_eq, List.find?_cons_of_pos _ h]
  decide

theorem getSubdir_video (m : String) (h : strStartsWith m "video/" = true) :
    getSubdirByRealMimetype m = some "videos" := by
  have himg : strStartsWith m "image/" = false := by
    by_contra hc
    rw [Bool.not_eq_false] at hc
    have h1 := head?_eq_of_startsWith h (by decide)
    have h2 := head?_eq_of_startsWith hc (by decide)
    rw [h1] at h2
    exact absurd h2 (by decide)
  unfold getSubdirByRealMimetype
  rw [if_neg (startsWith_ne_empty h (by decide))]
  rw [MIME_PREFIXES_eq, List.find?_cons_of_neg _ (by simp [himg]),
    List.find?_cons_of_pos _ h]
  decide

theorem getSubdir_audio (m : String) (h : strStartsWith m "audio/" = true) :
    getSubdirByRealMimetype m = some "audios" := by
  have himg : strStartsWith m "image/" = false := by
    by_contra hc
    rw [Bool.not_eq_false] at hc
    have h1 := head?_eq_of_startsWith h (by decide)
    have h2 := head?_eq_of_startsWith hc (by decide)
    rw [h1] at h2
    exact absurd h2 (by decide)
  have hvid : strStartsWith m "video/" = false := by
    by_contra hc
    rw [Bool.not_eq_false] at hc
    have h1 := head?_eq_of_startsWith h (by decide)
    have h2 := head?_eq_of_startsWith hc (by decide)
    rw [h1] at h2
    exact absurd h2 (by decide)
  unfold getSubdirByRealMimetype
  rw [if_neg (startsWith_ne_empty h (by decide))]
  rw [MIME_PREFIXES_eq, List.find?_cons_of_neg _ (by simp [himg]),
    List.find?_cons_of_neg _ (by simp [hvid]), List.find?_cons_of_pos _ h]
  decide

/-- C6: every attachment record returned by the organizer for a
non-empty accepted upload set carries a stored relative path of the form
`messageId/subdir/name.ext`, where `subdir` is determined by the file's
verified type (`images` for `image/png`, `videos` for `video/mp4`), the
name component is a freshly generated uuid, the extension is the
classified one, and the access URL is `"/uploads/"` followed by the
relative path. -/
theorem C6_organize (files : List UploadedFile) (messageId : String)
    (gen : Nat → String) (hid : '/' ∉ messageId.data) :
    ∀ ref ∈ (organizeUploadedFiles files messageId gen).1,
      ∃ f ∈ files, ∃ subdir i,
        getSubdirByRealMimetype (effMime f) = some subdir ∧
        (effMime f = "image/png" → subdir = "images") ∧
        (effMime f = "video/mp4" → subdir = "videos") ∧
        ref.filename = messageId ++ "/" ++ subdir ++ "/"
          ++ (gen i ++ getExtensionFromMime (effMime f)) ∧
        ref.url = "/uploads/" ++ ref.filename := by
  intro ref href
  by_cases hlen : files.length = 0
  · simp only [organizeUploadedFiles, if_pos hlen] at href
    cases href
  · simp only [organizeUploadedFiles, if_neg hlen] at href
    obtain ⟨p, hp, f, hf, i, hi⟩ := organizeGroups_mem _ _ _ _ href
    obtain ⟨hffiles, hsub⟩ := groupFilesByType_inv files p hp f hf
    refine ⟨f, hffiles, p.1, i, hsub, ?_, ?_, ?_, ?_⟩
    · intro hpng
      rw [hpng] at hsub
      have hval : getSubdirByRealMimetype "image/png" = some "images" := by decide
      rw [hval] at hsub
      exact (Option.some.inj hsub).symm
    · intro hmp4
      rw [hmp4] at hsub
      have hval : getSubdirByRealMimetype "video/mp4" = some "videos" := by decide
      rw [hval] at hsub
      exact (Option.some.inj hsub).symm
    · rw [hi]
      simp [moveSingleFile, basename_concat UPLOADS_DIR messageId hid]
    · rw [hi]
      rfl

/-- Concrete instantiation of `C6_organize`: one `image/png` and one
`video/mp4` upload yield attachment records under `abc/images/` and
`abc/videos/` with the classified extensions and derived URLs. -/
theorem C6_organize_witness :
    ∃ f ∈ [(⟨"/tmp/a", "a.png", "image/png", some "image/png", 5,
        .detected "image/png"⟩ : UploadedFile),
      ⟨"/tmp/b", "b.mp4", "video/mp4", some "video/mp4", 7, .detected "video/mp4"⟩],
      ∃ subdir i,
        getSubdirByRealMimetype (effMime f) = some subdir ∧
        (effMime f = "image/png" → subdir = "images") ∧
        (effMime f = "video/mp4" → subdir = "videos") ∧
        (⟨"abc/images/aaaa.png", "a.png", "image/png", 5,
          "/uploads/abc/images/aaaa.png"⟩ : AttachmentRef).filename
          = "abc" ++ "/" ++ subdir ++ "/"
            ++ ((fun _ : Nat => "aaaa") i ++ getExtensionFromMime (effMime f)) ∧
        (⟨"abc/images/aaaa.png", "a.png", "image/png", 5,
          "/uploads/abc/images/aaaa.png"⟩ : AttachmentRef).url
          = "/uploads/"
            ++ (⟨"abc/images/aaaa.png", "a.png", "image/png", 5,
              "/uploads/abc/images/aaaa.png"⟩ : AttachmentRef).filename :=
  C6_organize
    [⟨"/tmp/a", "a.png", "image/png", some "image/png", 5, .detected "image/png"⟩,
     ⟨"/tmp/b", "b.mp4", "video/mp4", some "video/mp4", 7, .detected "video/mp4"⟩]
    "abc" (fun _ => "aaaa") (by decide)
    ⟨"abc/images/aaaa.png", "a.png", "image/png", 5, "/uploads/abc/images/aaaa.png"⟩
    (by decide)

theorem lookup_none_of_not_allowed (m : String)
    (h : ALLOWED_FILE_TYPES.contains m = false) :
    MIME_TO_EXT.lookup m = none := by
  have hmem : m ∉ ALLOWED_FILE_TYPES := by simpa using h
  have k1 : (m == "image/jpeg") = false := beq_eq_false_iff_ne.mpr
    (fun he => hmem (he.symm ▸ (by decide : "image/jpeg" ∈ ALLOWED_FILE_TYPES)))
  have k2 : (m == "image/png") = false := beq_eq_false_iff_ne.mpr
    (fun he => hmem (he.symm ▸ (by decide : "image/png" ∈ ALLOWED_FILE_TYPES)))
  have k3 : (m == "image/gif") = false := beq_eq_false_iff_ne.mpr
    (fun he => hmem (he.symm ▸ (by decide : "image/gif" ∈ ALLOWED_FILE_TYPES)))
  have k4 : (m == "image/webp") = false := beq_eq_false_iff_ne.mpr
    (fun he => hmem (he.symm ▸ (by decide : "image/webp" ∈ ALLOWED_FILE_TYPES)))
  have k5 : (m == "video/mp4") = false := beq_eq_false_iff_ne.mpr
    (fun he => hmem (he.symm ▸ (by decide : "video/mp4" ∈ ALLOWED_FILE_TYPES)))
  have k6 : (m == "audio/mpeg") = false := beq_eq_false_iff_ne.mpr
    (fun he => hmem (he.symm ▸ (by decide : "audio/mpeg" ∈ ALLOWED_FILE_TYPES)))
  have k7 : (m == "audio/wav") = false := beq_eq_false_iff_ne.mpr
    (fun he => hmem (he.symm ▸ (by decide : "audio/wav" ∈ ALLOWED_FILE_TYPES)))
  simp [MIME_TO_EXT, List.lookup, k1, k2, k3, k4, k5, k6, k7]

/-- C10: a mime type that starts with `image/`, `video/` or `audio/` but
is not in the allow-list still classifies to that family's subdirectory
(`image/svg+xml → images`, `audio/ogg → audios`) while its extension
falls back to `".bin"`; the extension fallback fires for every type
outside the allow-list (equivalently, absent from `MIME_TO_EXT`); and
the organizer stores one attachment per file whose type classifies to a
subdirectory — only files matching none of the three stems are
dropped. -/
theorem C10_classifier :
    (∀ m : String, strStartsWith m "image/" = true →
      getSubdirByRealMimetype m = some "images") ∧
    (∀ m : String, strStartsWith m "video/" = true →
      getSubdirByRealMimetype m = some "videos") ∧
    (∀ m : String, strStartsWith m "audio/" = true →
      getSubdirByRealMimetype m = some "audios") ∧
    getSubdirByRealMimetype "image/svg+xml" = some "images" ∧
    getExtensionFromMime "image/svg+xml" = ".bin" ∧
    getSubdirByRealMimetype "audio/ogg" = some "audios" ∧
    getExtensionFromMime "audio/ogg" = ".bin" ∧
    (∀ m : String, MIME_TO_EXT.lookup m = none → getExtensionFromMime m = ".bin") ∧
    (∀ m : String, ALLOWED_FILE_TYPES.contains m = false →
      getExtensionFromMime m = ".bin") ∧
    (∀ (files : List UploadedFile) (mid : String) (gen : Nat → String),
      (organizeUploadedFiles files mid gen).1.length
        = files.countP (fun f => (getSubdirByRealMimetype (effMime f)).isSome)) := by
  refine ⟨getSubdir_image, getSubdir_video, getSubdir_audio,
    by decide, by decide, by decide, by decide, ?_, ?_, ?_⟩
  · intro m hnone
    by_cases hm : m = "" <;> simp [getExtensionFromMime, hm, hnone]
  · intro m hcon
    have hnone := lookup_none_of_not_allowed m hcon
    by_cases hm : m = "" <;> simp [getExtensionFromMime, hm, hnone]
  · intro files mid gen
    by_cases hlen : files.length = 0
    · have : files = [] := List.length_eq_zero.mp hlen
      subst this
      simp [organizeUploadedFiles]
    · simp only [organizeUploadedFiles, if_neg hlen]
      rw [organizeGroups_length]
      have := groupFold_size files []
      simpa [groupFilesByType, groupsSize] using this

/-- Concrete instantiation of `C10_classifier`: `image/x-icon` matches
the `image/` stem without being allow-listed, yet classifies to
`images`. -/
theorem C10_classifier_witness :
    getSubdirByRealMimetype "image/x-icon" = some "images" :=
  C10_classifier.1 "image/x-icon" (by decide)

/-- `fileValidationMiddleware` (`middleware/upload.js` lines 82-103):
files without a temporary path are skipped, every other file is probed;
the first invalid file aborts the request with a 400 (`none`), otherwise
each file is annotated with its verified `realMimetype` and the request
proceeds with the annotated list. -/
def fileValidationMiddleware : List UploadedFile → Option (List UploadedFile)
  | [] => some []
  | file :: rest =>
    if file.filepath = "" then
      (fileValidationMiddleware rest).map (fun others => file :: others)
    else
      let validationResult := validateFile file.probe
      if validationResult.isValid then
        (fileValidationMiddleware rest).map
          (fun others =>
            { file with realMimetype := validationResult.detectedMimeType } :: others)
      else none

/-- Outcome of `POST /api/messages`. -/
inductive PostResult where
  | validationError
  | missingTextAndFiles
  | created (m : Message)
deriving DecidableEq, Repr

/-- The `POST /api/messages` pipeline: body parsing delivers `message`
(empty string for a missing field) and the flat file list; the
validation middleware runs first, then the handler
(`src/routes/api/messages.js` lines 93-133) checks
`!message && uploadedFiles.length === 0`, organizes the files, builds
the record with `messageId || uuidv4()` and the current time, and
appends it to the store. -/
def handlePostMessage (message : String) (uploadedFiles : List UploadedFile)
    (fallbackId genMessageId : String) (gen : Nat → String) (now : Nat)
    (store : List Message) : PostResult × List Message :=
  match fileValidationMiddleware uploadedFiles with
  | none => (.validationError, store)
  | some validatedFiles =>
    if message = "" ∧ validatedFiles.length = 0 then (.missingTextAndFiles, store)
    else
      let result := organizeUploadedFiles validatedFiles genMessageId gen
      let newMessage : Message :=
        { id := result.2.getD fallbackId
          message := message
          files := result.1
          timestamp := now }
      (.created newMessage, addMessage store newMessage)

theorem validateFile_isValid (p : ProbeResult)
    (h : (validateFile p).isValid = true) :
    ∃ t, (validateFile p).detectedMimeType = some t
      ∧ ALLOWED_FILE_TYPES.contains t = true := by
  cases p with
  | fault => simp [validateFile] at h
  | noMatch => simp [validateFile] at h
  | detected m =>
    by_cases hc : ALLOWED_FILE_TYPES.contains m = true
    · have hmem : m ∈ ALLOWED_FILE_TYPES := by simpa using hc
      exact ⟨m, by simp [validateFile, hmem], hc⟩
    · rw [Bool.not_eq_true] at hc
      have hmem : m ∉ ALLOWED_FILE_TYPES := by simpa using hc
      simp [validateFile, hmem] at h

theorem middleware_all_validated (files : List UploadedFile) :
    ∀ (validated : List UploadedFile),
    fileValidationMiddleware files = some validated →
    (∀ f ∈ files, f.filepath ≠ "") →
    validated.length = files.length ∧
    ∀ f ∈ validated, ∃ t, f.realMimetype = some t
      ∧ ALLOWED_FILE_TYPES.contains t = true := by
  induction files with
  | nil =>
    intro validated h _
    simp only [fileValidationMiddleware, Option.some.injEq] at h
    subst h
    simp
  | cons file rest ih =>
    intro validated h hfp
    have hfpf : ¬ file.filepath = "" := hfp file (List.mem_cons_self _ _)
    simp only [fileValidationMiddleware, if_neg hfpf] at h
    by_cases hv : (validateFile file.probe).isValid = true
    · rw [if_pos hv] at h
      rcases hr : fileValidationMiddleware rest with _ | others
      · rw [hr] at h
        simp at h
      · rw [hr] at h
        simp only [Option.map_some', Option.some.injEq] at h
        subst h
        obtain ⟨hlen, hall⟩ := ih others hr
          (fun g hg => hfp g (List.mem_cons_of_mem file hg))
        refine ⟨by simp [hlen], ?_⟩
        intro f hf
        rcases List.mem_cons.mp hf with rfl | hf'
        · obtain ⟨t, ht, hc⟩ := validateFile_isValid file.probe hv
          exact ⟨t, by simpa using ht, hc⟩
        · exact hall f hf'
    · rw [if_neg hv] at h
      cases h

theorem allowed_subdir_isSome (t : String)
    (h : ALLOWED_FILE_TYPES.contains t = true) :
    (getSubdirByRealMimetype t).isSome = true := by
  have hmem : t ∈ ALLOWED_FILE_TYPES := by simpa using h
  fin_cases hmem <;> decide

theorem organize_length_countP (files : List UploadedFile) (mid : String)
    (gen : Nat → String) :
    (organizeUploadedFiles files mid gen).1.length
      = files.countP (fun f => (getSubdirByRealMimetype (effMime f)).isSome) := by
  by_cases hlen : files.length = 0
  · have : files = [] := List.length_eq_zero.mp hlen
    subst this
    simp [organizeUploadedFiles]
  · simp only [organizeUploadedFiles, if_neg hlen]
    rw [organizeGroups_length]
    have := groupFold_size files []
    simpa [groupFilesByType, groupsSize] using this

/-- C9: no record with both an empty text and an empty attachment list
is ever appended by the submit pipeline: every message present in the
store afterwards either was already there or has non-empty text or at
least one attachment.  (Files reaching the pipeline carry a temporary
path, as the multipart parser guarantees.) -/
theorem C9_nonempty_invariant (message : String) (uploadedFiles : List UploadedFile)
    (fallbackId genMessageId : String) (gen : Nat → String) (now : Nat)
    (store : List Message)
    (hfp : ∀ f ∈ uploadedFiles, f.filepath ≠ "") :
    ∀ m ∈ (handlePostMessage message uploadedFiles fallbackId genMessageId
        gen now store).2,
      m ∈ store ∨ m.message ≠ "" ∨ m.files ≠ [] := by
  intro m hm
  rcases hmw : fileValidationMiddleware uploadedFiles with _ | validated
  · simp only [handlePostMessage, hmw] at hm
    exact Or.inl hm
  · simp only [handlePostMessage, hmw] at hm
    by_cases hcond : message = "" ∧ validated.length = 0
    · rw [if_pos hcond] at hm
      exact Or.inl hm
    · rw [if_neg hcond] at hm
      simp only [addMessage] at hm
      rcases List.mem_append.mp hm with hin | hin
      · exact Or.inl hin
      · simp only [List.mem_singleton] at hin
        subst hin
        by_cases hmsg : message = ""
        · refine Or.inr (Or.inr ?_)
          have hvne : validated.length ≠ 0 := fun hz => hcond ⟨hmsg, hz⟩
          obtain ⟨hlen, hall⟩ := middleware_all_validated uploadedFiles validated hmw hfp
          have hsomeall : ∀ f ∈ validated,
              (getSubdirByRealMimetype (effMime f)).isSome = true := by
            intro f hf
            obtain ⟨t, ht, hc⟩ := hall f hf
            have : effMime f = t := by simp [effMime, ht]
            rw [this]
            exact allowed_subdir_isSome t hc
          have hcount : validated.countP
              (fun f => (getSubdirByRealMimetype (effMime f)).isSome)
              = validated.length := by
            rw [List.countP_eq_length]
            exact hsomeall
          have horg : (organizeUploadedFiles validated genMessageId gen).1.length
              = validated.length := by
            rw [organize_length_countP, hcount]
          intro hfiles
          have hfiles' : (organizeUploadedFiles validated genMessageId gen).1 = [] :=
            hfiles
          rw [hfiles'] at horg
          have hz : validated.length = 0 := by simpa using horg.symm
          exact hvne hz
        · exact Or.inr (Or.inl hmsg)

/-- Concrete instantiation of `C9_nonempty_invariant`: a text-less
request with one valid `image/png` upload produces a record with one
attachment (so not both-empty). -/
theorem C9_nonempty_invariant_witness :
    (⟨"abc", "", [⟨"abc/images/aaaa.png", "a.png", "image/png", 5,
        "/uploads/abc/images/aaaa.png"⟩], 7⟩ : Message) ∈ ([] : List Message) ∨
    (⟨"abc", "", [⟨"abc/images/aaaa.png", "a.png", "image/png", 5,
        "/uploads/abc/images/aaaa.png"⟩], 7⟩ : Message).message ≠ "" ∨
    (⟨"abc", "", [⟨"abc/images/aaaa.png", "a.png", "image/png", 5,
        "/uploads/abc/images/aaaa.png"⟩], 7⟩ : Message).files ≠ [] :=
  C9_nonempty_invariant "" [⟨"/tmp/a", "a.png", "image/png", none, 5,
    .detected "image/png"⟩] "fb" "abc" (fun _ => "aaaa") 7 []
    (by intro f hf; simp at hf; subst hf; decide)
    ⟨"abc", "", [⟨"abc/images/aaaa.png", "a.png", "image/png", 5,
      "/uploads/abc/images/aaaa.png"⟩], 7⟩
    (by decide)

/-- `str.split('/')` of JavaScript at the character-list level. -/
def splitSlash : List Char → List (List Char)
  | [] => [[]]
  | c :: rest =>
    if c = '/' then [] :: splitSlash rest
    else
      match splitSlash rest with
      | [] => [[c]]
      | h :: t => (c :: h) :: t

/-- `str.includes(sub)` of JavaScript. -/
def strContains (s sub : String) : Bool := decide (sub.data <:+: s.data)

/-- The archive-internal name computed for one attachment
(`src/routes/api/messages.js` lines 449-452): split the stored relative
path on `'/'`; with at least two segments, rejoin everything after the
first; otherwise fall back to `path.basename`. -/
def archiveEntryName (filename : String) : String :=
  let parts := splitSlash filename.data
  if 2 ≤ parts.length then String.mk (List.intercalate ['/'] (parts.drop 1))
  else basename filename

/-- The `archive.file(filePath, { name: archivePath })` calls of the
download handler: one archive entry `(name, sourcePath)` per
attachment, in order. -/
def buildArchiveEntries (files : List AttachmentRef) : List (String × String) :=
  files.map (fun file =>
    (archiveEntryName file.filename, UPLOADS_DIR ++ "/" ++ file.filename))

/-- Outcome of `GET /api/messages/:messageId/attachments/download`. -/
inductive DownloadResponse where
  | badRequest
  | msgNotFound
  | noAttachments
  | fileMissing
  | zipStream (entries : List (String × String))
deriving DecidableEq, Repr

/-- The download handler (`src/routes/api/messages.js` lines 372-460):
messageId pattern check (including the redundant `/`, `\`, `..`
checks), message lookup, attachment presence check, per-file existence
pre-check, then the streamed ZIP whose entries `buildArchiveEntries`
describes. -/
def handleDownloadAttachments (messages : List Message) (messageId : String)
    (fileExists : String → Bool) : DownloadResponse :=
  if !validMessageId messageId || strContains messageId "/"
      || strContains messageId "\\" || strContains messageId ".." then
    .badRequest
  else
    match messages.find? (fun msg => msg.id == messageId) with
    | none => .msgNotFound
    | some message =>
      if message.files.length = 0 then .noAttachments
      else if message.files.all
          (fun file => fileExists (UPLOADS_DIR ++ "/" ++ file.filename)) then
        .zipStream (buildArchiveEntries message.files)
      else .fileMissing

theorem splitSlash_no_slash (a : List Char) (ha : '/' ∉ a) :
    splitSlash a = [a] := by
  induction a with
  | nil => rfl
  | cons c cs ih =>
    have hc : ¬ c = '/' := fun h => ha (h ▸ List.mem_cons_self c cs)
    have ih' := ih (fun h => ha (List.mem_cons_of_mem c h))
    simp only [splitSlash, if_neg hc, ih']

theorem splitSlash_append (a b : List Char) (ha : '/' ∉ a) :
    splitSlash (a ++ '/' :: b) = a :: splitSlash b := by
  induction a with
  | nil => simp [splitSlash]
  | cons c cs ih =>
    have hc : ¬ c = '/' := fun h => ha (h ▸ List.mem_cons_self c cs)
    have ih' := ih (fun h => ha (List.mem_cons_of_mem c h))
    simp only [List.cons_append, splitSlash, if_neg hc, List.append_eq, ih']

theorem intercalate_pair (x y : List Char) :
    List.intercalate ['/'] [x, y] = x ++ '/' :: y := by
  simp [List.intercalate, List.intersperse]

theorem data_triple (mid subdir name : String) :
    (mid ++ "/" ++ subdir ++ "/" ++ name).data
      = mid.data ++ '/' :: (subdir.data ++ '/' :: name.data) := by
  simp only [String.data_append]
  simp [List.append_assoc]

theorem data_pair (subdir name : String) :
    (subdir ++ "/" ++ name).data = subdir.data ++ '/' :: name.data := by
  simp only [String.data_append]
  simp [List.append_assoc]

theorem archiveEntryName_strip (mid subdir name : String)
    (hmid : '/' ∉ mid.data) (hsub : '/' ∉ subdir.data) (hname : '/' ∉ name.data) :
    archiveEntryName (mid ++ "/" ++ subdir ++ "/" ++ name)
      = subdir ++ "/" ++ name := by
  unfold archiveEntryName
  rw [data_triple, splitSlash_append _ _ hmid, splitSlash_append _ _ hsub,
    splitSlash_no_slash _ hname]
  simp only [List.length_cons, List.length_singleton, List.drop_succ_cons,
    List.drop_zero]
  rw [if_pos (by omega), intercalate_pair, ← data_pair]

theorem validMessageId_no_slash (mid : String) (h : validMessageId mid = true) :
    '/' ∉ mid.data := by
  intro hmem
  unfold validMessageId at h
  simp only [Bool.and_eq_true, List.all_eq_true] at h
  have := h.2 '/' hmem
  exact absurd this (by decide)

/-- C7: for a stored message with a valid id whose attachment files all
exist, the download response is a streamed ZIP with exactly one entry
per attachment, each entry named by the stored relative path with the
leading `messageId/` segment stripped, i.e. `subdir/name` without the
message id segment. -/
theorem C7_zip_entries (messages : List Message) (messageId : String)
    (fileExists : String → Bool) (message : Message)
    (hvalid : validMessageId messageId = true)
    (hc1 : strContains messageId "/" = false)
    (hc2 : strContains messageId "\\" = false)
    (hc3 : strContains messageId ".." = false)
    (hfind : messages.find? (fun msg => msg.id == messageId) = some message)
    (hne : message.files ≠ [])
    (hex : ∀ file ∈ message.files,
      fileExists (UPLOADS_DIR ++ "/" ++ file.filename) = true) :
    handleDownloadAttachments messages messageId fileExists
        = .zipStream (buildArchiveEntries message.files) ∧
    (buildArchiveEntries message.files).length = message.files.length ∧
    (∀ file ∈ message.files,
      (archiveEntryName file.filename, UPLOADS_DIR ++ "/" ++ file.filename)
        ∈ buildArchiveEntries message.files) ∧
    (∀ file ∈ message.files, ∀ subdir name : String,
      '/' ∉ subdir.data → '/' ∉ name.data →
      file.filename = messageId ++ "/" ++ subdir ++ "/" ++ name →
      archiveEntryName file.filename = subdir ++ "/" ++ name) := by
  refine ⟨?_, ?_, ?_, ?_⟩
  · unfold handleDownloadAttachments
    rw [if_neg (by simp [hvalid, hc1, hc2, hc3]), hfind]
    have h1 : ¬ message.files.length = 0 := fun h => hne (List.length_eq_zero.mp h)
    have h2 : (message.files.all
        (fun file => fileExists (UPLOADS_DIR ++ "/" ++ file.filename))) = true := by
      rw [List.all_eq_true]
      exact hex
    simp [h1, h2]
  · exact List.length_map _ _
  · intro file hfile
    exact List.mem_map_of_mem
      (fun file => (archiveEntryName file.filename,
        UPLOADS_DIR ++ "/" ++ file.filename)) hfile
  · intro file _ subdir name hsub hname hform
    rw [hform]
    exact archiveEntryName_strip messageId subdir name
      (validMessageId_no_slash messageId hvalid) hsub hname

/-- Concrete instantiation of `C7_zip_entries`: a message with one
stored attachment `mid/images/aaaa.png` streams a one-entry ZIP whose
entry is named `images/aaaa.png`. -/
theorem C7_zip_entries_witness :
    handleDownloadAttachments
      [⟨"aaaaaaaa-bbbb-cccc-dddd-eeeeeeeeffff", "hi",
        [⟨"aaaaaaaa-bbbb-cccc-dddd-eeeeeeeeffff/images/aaaa.png", "a.png",
          "image/png", 5,
          "/uploads/aaaaaaaa-bbbb-cccc-dddd-eeeeeeeeffff/images/aaaa.png"⟩], 3⟩]
      "aaaaaaaa-bbbb-cccc-dddd-eeeeeeeeffff" (fun _ => true)
      = .zipStream (buildArchiveEntries
        [⟨"aaaaaaaa-bbbb-cccc-dddd-eeeeeeeeffff/images/aaaa.png", "a.png",
          "image/png", 5,
          "/uploads/aaaaaaaa-bbbb-cccc-dddd-eeeeeeeeffff/images/aaaa.png"⟩]) :=
  (C7_zip_entries
    [⟨"aaaaaaaa-bbbb-cccc-dddd-eeeeeeeeffff", "hi",
      [⟨"aaaaaaaa-bbbb-cccc-dddd-eeeeeeeeffff/images/aaaa.png", "a.png",
        "image/png", 5,
        "/uploads/aaaaaaaa-bbbb-cccc-dddd-eeeeeeeeffff/images/aaaa.png"⟩], 3⟩]
    "aaaaaaaa-bbbb-cccc-dddd-eeeeeeeeffff" (fun _ => true)
    ⟨"aaaaaaaa-bbbb-cccc-dddd-eeeeeeeeffff", "hi",
      [⟨"aaaaaaaa-bbbb-cccc-dddd-eeeeeeeeffff/images/aaaa.png", "a.png",
        "image/png", 5,
        "/uploads/aaaaaaaa-bbbb-cccc-dddd-eeeeeeeeffff/images/aaaa.png"⟩], 3⟩
    (by decide) (by decide) (by decide) (by decide) (by decide) (by decide)
    (by intro file hf; simp at hf; subst hf; decide)).1
